import Mathlib

/-!
# Shallow embedding of disgo (src/disgo.go)

This file embeds, in Lean, the configuration-resolution and
message-segmentation core of the `disgo` command-line tool and proves the
documented properties about it.

Modelling conventions:
* A Go string is modelled as a list of characters, `GoStr`, one element per
  byte of the Go string (`len`, indexing, slicing and the single-character
  separators used by the program all act uniformly on the sequence).
* A Go `map[string]string` is modelled as an association list together with
  an insert-or-overwrite operation `mapInsert`.  Go map iteration order is
  unspecified; wherever the program iterates over a map we fix the first
  insertion order, and every theorem stated about maps is order-insensitive
  (stated through `mapLookup` or through `List.Nodup` of the key list).
* Go `int` is modelled as `Int`.
-/

namespace Disgo

/-- A Go string, one list element per byte (disgo.go works bytewise). -/
abbrev GoStr := List Char

/-! ## Constants (disgo.go lines 16-26) -/

def DefaultMaxMessageSize : Int := 2000

def ModeSerialize : GoStr := "serialize".data

def ModeTruncate : GoStr := "truncate".data

def ModeReplace : GoStr := "replace".data

def ModeMerge : GoStr := "merge".data

/-! ## Go standard-library string helpers used by disgo -/

/-- Go `strings.Split(s, sep)` for a one-character separator (the only form
disgo uses).  `goSplit sep "" = [""]` exactly as in Go. -/
def goSplit (sep : Char) : GoStr → List GoStr
  | [] => [[]]
  | c :: rest =>
    if c = sep then [] :: goSplit sep rest
    else
      match goSplit sep rest with
      | [] => [[c]]
      | g :: gs => (c :: g) :: gs

/-- Go `unicode.IsSpace` restricted to the Latin-1 range, which is the rule Go
applies to every byte below 0x100: space, \t, \n, \v, \f, \r, NEL (U+0085) and
NBSP (U+00A0).  (Space runes above the Latin-1 range exist in Go's tables but
play no role in any claim.) -/
def goIsSpace (c : Char) : Bool :=
  c = ' ' || c = '\t' || c = '\n' || c = '\u000B' || c = '\u000C' ||
    c = '\r' || c = '\u0085' || c = ' '

/-- Go `strings.TrimSpace`: drop leading and trailing white space. -/
def trimSpace (s : GoStr) : GoStr :=
  ((s.dropWhile goIsSpace).reverse.dropWhile goIsSpace).reverse

/-- Go `strings.LastIndex(s, needle)` for a one-character needle (the only
form disgo uses): the index of the last occurrence of `c` in `s`, or `-1`
when `c` does not occur. -/
def lastIndex (s : GoStr) (c : Char) : Int :=
  match s with
  | [] => -1
  | x :: xs =>
    let r := lastIndex xs c
    if 0 ≤ r then r + 1
    else if x = c then 0 else -1

/-! ## The configuration data model (disgo.go lines 30-44 and 46-66) -/

/-- The persisted/effective configuration (struct `Config`, disgo.go:30-44).
Fields irrelevant to the core logic (`ServerID`, `Username`, ...) are kept so
that the structure mirrors the source. -/
structure Config where
  Token : GoStr
  ChannelID : GoStr
  ServerID : GoStr
  Username : GoStr
  Tags : List GoStr
  TagMode : GoStr
  Properties : List (GoStr × GoStr)
  PropertyMode : GoStr
  Debug : Bool
  MaxMessageSize : Int
  MessageMode : GoStr
  ThreadName : GoStr
  Passthrough : Bool
deriving DecidableEq, Repr

/-- The per-invocation flag values carried on the `CLI` struct
(disgo.go:46-66).  Only the fields read by `mergeFlags` are modelled. -/
structure CLIFlags where
  token : GoStr
  channelID : GoStr
  serverID : GoStr
  username : GoStr
  tags : GoStr
  tagMode : GoStr
  properties : GoStr
  propertyMode : GoStr
  debug : Bool
  passthrough : Bool
  maxMessageSize : Int
  messageMode : GoStr
  threadName : GoStr
deriving DecidableEq, Repr

/-! ## Tag and property parsing (disgo.go lines 119-145) -/

/-- `parseTags` (disgo.go:119-129): empty input gives no tags; otherwise the
input is split on commas and each element is trimmed. -/
def parseTags (tagStr : GoStr) : List GoStr :=
  if tagStr = [] then [] else (goSplit ',' tagStr).map trimSpace

/-- Insert-or-overwrite on the association-list model of a Go
`map[string]string`: `m[k] = v`.  When the key is present every binding of
that key is overwritten in place; otherwise the new binding is appended. -/
def mapInsert (m : List (GoStr × GoStr)) (k v : GoStr) : List (GoStr × GoStr) :=
  if m.any (fun p => p.1 = k) then
    m.map (fun p => if p.1 = k then (k, v) else p)
  else m ++ [(k, v)]

/-- Lookup on the association-list model of a Go map: the first binding of
the key, if any. -/
def mapLookup (m : List (GoStr × GoStr)) (k : GoStr) : Option GoStr :=
  match m with
  | [] => none
  | p :: rest => if p.1 = k then some p.2 else mapLookup rest k

/-- The body of the loop of `parseProperties` (disgo.go:138-143): the pair is
trimmed and split on colons, and it contributes a binding exactly when the
split yields two fields, i.e. when the trimmed pair contains exactly one
colon. -/
def propStep (props : List (GoStr × GoStr)) (pair : GoStr) : List (GoStr × GoStr) :=
  match goSplit ':' (trimSpace pair) with
  | [k, v] => mapInsert props (trimSpace k) (trimSpace v)
  | _ => props

/-- `parseProperties` (disgo.go:131-145): empty input gives the empty map;
otherwise the input is split on semicolons and each resulting pair is
processed by the loop body `propStep`. -/
def parseProperties (propStr : GoStr) : List (GoStr × GoStr) :=
  if propStr = [] then []
  else (goSplit ';' propStr).foldl propStep []

/-! ## Flag merging (disgo.go lines 213-289) -/

/-- Insertion into the key list of the Go set `map[string]bool` used for tag
deduplication (disgo.go:260-266): a key already present is left alone, a new
key is added. -/
def insertIfAbsent (l : List GoStr) (t : GoStr) : List GoStr :=
  if t ∈ l then l else l ++ [t]

/-- The merge branch of tag handling (disgo.go:258-271): both the existing
and the incoming tags are poured into a `map[string]bool` and the key list is
read back.  Go iterates the map in an unspecified order; we fix first
insertion order, which realizes the same key set. -/
def dedupTags (old new : List GoStr) : List GoStr :=
  (old ++ new).foldl insertIfAbsent []

/-- Tag handling of `mergeFlags` (disgo.go:254-273), parameterized by the
configuration values it reads: replace mode adopts the parsed incoming tags,
any other mode deduplicates the union; an empty incoming string leaves the
existing tags untouched. -/
def mergeTags (existing : List GoStr) (incoming : GoStr) (mode : GoStr) : List GoStr :=
  if incoming ≠ [] then
    let newTags := parseTags incoming
    if mode = ModeReplace then newTags
    else dedupTags existing newTags
  else existing

/-- Property handling of `mergeFlags` (disgo.go:276-288), parameterized by
the configuration values it reads: replace mode adopts the parsed incoming
map, any other mode writes every parsed binding into the existing map; an
empty incoming string leaves the existing map untouched.  (The `nil` map
check of line 281 is invisible in the list model, where `nil` and the empty
map coincide.) -/
def mergeProperties (existing : List (GoStr × GoStr)) (incoming : GoStr)
    (mode : GoStr) : List (GoStr × GoStr) :=
  if incoming ≠ [] then
    let newProps := parseProperties incoming
    if mode = ModeReplace then newProps
    else newProps.foldl (fun m p => mapInsert m p.1 p.2) existing
  else existing

/-- disgo.go:215-217. -/
def applyToken (c : CLIFlags) (cfg : Config) : Config :=
  if c.token ≠ [] then { cfg with Token := c.token } else cfg

/-- disgo.go:218-220. -/
def applyChannelID (c : CLIFlags) (cfg : Config) : Config :=
  if c.channelID ≠ [] then { cfg with ChannelID := c.channelID } else cfg

/-- disgo.go:221-223. -/
def applyServerID (c : CLIFlags) (cfg : Config) : Config :=
  if c.serverID ≠ [] then { cfg with ServerID := c.serverID } else cfg

/-- disgo.go:224-226. -/
def applyUsername (c : CLIFlags) (cfg : Config) : Config :=
  if c.username ≠ [] then { cfg with Username := c.username } else cfg

/-- disgo.go:227-229. -/
def applyDebug (c : CLIFlags) (cfg : Config) : Config :=
  if c.debug then { cfg with Debug := true } else cfg

/-- disgo.go:231-233. -/
def applyPassthrough (c : CLIFlags) (cfg : Config) : Config :=
  if c.passthrough then { cfg with Passthrough := true } else cfg

/-- disgo.go:235-237. -/
def applyTagMode (c : CLIFlags) (cfg : Config) : Config :=
  if c.tagMode ≠ [] then { cfg with TagMode := c.tagMode } else cfg

/-- disgo.go:238-240. -/
def applyPropertyMode (c : CLIFlags) (cfg : Config) : Config :=
  if c.propertyMode ≠ [] then { cfg with PropertyMode := c.propertyMode } else cfg

/-- disgo.go:242-244: the max-size flag only lands when it differs from the
compiled default sentinel. -/
def applyMaxMessageSize (c : CLIFlags) (cfg : Config) : Config :=
  if c.maxMessageSize ≠ DefaultMaxMessageSize then
    { cfg with MaxMessageSize := c.maxMessageSize }
  else cfg

/-- disgo.go:245-247. -/
def applyMessageMode (c : CLIFlags) (cfg : Config) : Config :=
  if c.messageMode ≠ [] then { cfg with MessageMode := c.messageMode } else cfg

/-- disgo.go:249-251. -/
def applyThreadName (c : CLIFlags) (cfg : Config) : Config :=
  if c.threadName ≠ [] then { cfg with ThreadName := c.threadName } else cfg

/-- disgo.go:254-273. -/
def applyTags (c : CLIFlags) (cfg : Config) : Config :=
  { cfg with Tags := mergeTags cfg.Tags c.tags cfg.TagMode }

/-- disgo.go:276-288. -/
def applyProperties (c : CLIFlags) (cfg : Config) : Config :=
  { cfg with Properties := mergeProperties cfg.Properties c.properties cfg.PropertyMode }

/-- `mergeFlags` (disgo.go:213-289): the field updates in source order -
scalar overrides, sticky booleans, mode settings, then tag and property
handling (which read the already-updated modes). -/
def mergeFlags (c : CLIFlags) (cfg : Config) : Config :=
  applyProperties c (applyTags c (applyThreadName c (applyMessageMode c
    (applyMaxMessageSize c (applyPropertyMode c (applyTagMode c
      (applyPassthrough c (applyDebug c (applyUsername c
        (applyServerID c (applyChannelID c (applyToken c cfg))))))))))))

/-! ## Message segmentation (disgo.go lines 386-428) -/

/-- `getEffectiveMaxMessageSize` (disgo.go:423-428): the configured size, or
the compiled default 2000 when the configured size is not positive. -/
def getEffectiveMaxMessageSize (cfg : Config) : Nat :=
  if cfg.MaxMessageSize ≤ 0 then DefaultMaxMessageSize.toNat
  else cfg.MaxMessageSize.toNat

/-- One iteration of the chunk-size computation inside the serialize loop of
`splitMessage` (disgo.go:400-411): the candidate split point is
`min maxSize (len remaining)`; when the candidate does not consume all of
`remaining`, the split point moves to just past the last newline of the
candidate window provided that newline sits at a positive index. -/
def splitAtCalc (maxSize : Nat) (remaining : GoStr) : Nat :=
  let splitAt0 := if remaining.length < maxSize then remaining.length else maxSize
  if splitAt0 < remaining.length then
    let lastNewline := lastIndex (remaining.take splitAt0) '\n'
    if 0 < lastNewline then lastNewline.toNat + 1 else splitAt0
  else splitAt0

/-- The serialize loop of `splitMessage` (disgo.go:397-415), written with
explicit fuel so that it is structurally recursive.  The Go loop consumes at
least one byte per iteration whenever `maxSize ≥ 1` (the only way the loop is
reached, since the effective max size is always positive), so fuel equal to
the length of the remaining content is always sufficient; the fuel-exhausted
branch is unreachable from `splitMessage`. -/
def serializeLoopFuel : Nat → Nat → GoStr → List GoStr
  | 0, _, _ => []
  | _, _, [] => []
  | fuel + 1, maxSize, remaining =>
    let s := splitAtCalc maxSize remaining
    remaining.take s :: serializeLoopFuel fuel maxSize (remaining.drop s)

/-- `splitMessage` (disgo.go:386-421): content that fits in the effective max
size is returned whole; otherwise `truncate` mode keeps the first `maxSize`
bytes, `serialize` mode runs the chunking loop, and any other mode value
falls through to the truncating default branch. -/
def splitMessage (cfg : Config) (content : GoStr) : List GoStr :=
  let maxSize := getEffectiveMaxMessageSize cfg
  if content.length ≤ maxSize then [content]
  else if cfg.MessageMode = ModeTruncate then [content.take maxSize]
  else if cfg.MessageMode = ModeSerialize then
    serializeLoopFuel content.length maxSize content
  else [content.take maxSize]

/-! ## Delivery decision (disgo.go lines 308-332) -/

/-- The observable outcome of the pure prefix of `sendToDiscord`:
a configuration error (`err nil` checks, which return before anything is
sent), the empty-input early return (`return nil`, success with nothing
sent), or a commitment to post the listed chunks over the network. -/
inductive DeliveryResult where
  | errTokenMissing : DeliveryResult
  | errChannelMissing : DeliveryResult
  | sentNothing : DeliveryResult
  | send : List GoStr → DeliveryResult
deriving DecidableEq, Repr

/-- `true` when the result is not one of the configuration errors returned
by `sendToDiscord` before delivery (both early `return nil` and a delivery
attempt count as non-error here; network failures are outside the model). -/
def DeliveryResult.isSuccess : DeliveryResult → Bool
  | .errTokenMissing => false
  | .errChannelMissing => false
  | .sentNothing => true
  | .send _ => true

/-- `true` when the result posts no message at all. -/
def DeliveryResult.sendsNoMessage : DeliveryResult → Bool
  | .send _ => false
  | _ => true

/-- The decision prefix of `sendToDiscord` (disgo.go:308-332): the credential
checks, the zero-length-input early return, and the chunking of the input.
The network delivery itself (disgo.go:338-381) is external I/O and is
represented by the `send` outcome carrying the chunks that would be posted. -/
def sendToDiscord (cfg : Config) (stdinData : GoStr) : DeliveryResult :=
  if cfg.Token = [] then .errTokenMissing
  else if cfg.ChannelID = [] then .errChannelMissing
  else if stdinData.length = 0 then .sentNothing
  else .send (splitMessage cfg stdinData)

/-! ## Concrete values used by witnesses and counterexamples -/

/-- A concrete configuration used to instantiate the theorems. -/
def baseConfig : Config :=
  { Token := "t".data, ChannelID := "c".data, ServerID := [], Username := [],
    Tags := [], TagMode := ModeMerge, Properties := [], PropertyMode := ModeMerge,
    Debug := false, MaxMessageSize := 3, MessageMode := ModeSerialize,
    ThreadName := [], Passthrough := false }

/-- A configuration carrying an unrecognized message mode. -/
def cfgInvalid : Config :=
  { baseConfig with MessageMode := "invalid_mode".data, MaxMessageSize := 2000 }

/-- A concrete existing property map. -/
def exProps : List (GoStr × GoStr) :=
  [("one".data, "1".data), ("two".data, "2".data)]

/-- Invocation flags carrying duplicate incoming tags in replace mode. -/
def cliDupTags : CLIFlags :=
  { token := [], channelID := [], serverID := [], username := [],
    tags := "a,a".data, tagMode := ModeReplace, properties := [],
    propertyMode := [], debug := false, passthrough := false,
    maxMessageSize := DefaultMaxMessageSize, messageMode := [], threadName := [] }

/-- Invocation flags carrying duplicate incoming tags in merge mode. -/
def cliDupMergeTags : CLIFlags :=
  { cliDupTags with tagMode := ModeMerge }

/-! ## Lemmas about the Go string helpers -/

theorem goSplit_ne_nil (sep : Char) (s : GoStr) : goSplit sep s ≠ [] := by
  induction s with
  | nil => simp [goSplit]
  | cons c rest ih =>
    unfold goSplit
    split_ifs
    · simp
    · cases h : goSplit sep rest <;> simp

theorem goSplit_eq_single (sep : Char) (s : GoStr) (h : sep ∉ s) :
    goSplit sep s = [s] := by
  induction s with
  | nil => rfl
  | cons c rest ih =>
    simp only [List.mem_cons, not_or] at h
    rw [goSplit, if_neg (fun hc => h.1 hc.symm), ih h.2]

theorem goSplit_append (sep : Char) (a b : GoStr) (ha : sep ∉ a) :
    goSplit sep (a ++ sep :: b) = a :: goSplit sep b := by
  induction a with
  | nil =>
    rw [List.nil_append, goSplit, if_pos rfl]
  | cons c rest ih =>
    simp only [List.mem_cons, not_or] at ha
    rw [List.cons_append, goSplit, if_neg (fun hc => ha.1 hc.symm), ih ha.2]

theorem lastIndex_lt_length (s : GoStr) (c : Char) :
    lastIndex s c < (s.length : Int) := by
  induction s with
  | nil => simp [lastIndex]
  | cons x xs ih =>
    simp only [lastIndex, List.length_cons]
    split_ifs <;> push_cast <;> omega

/-! ## Lemmas about the message segmenter -/

theorem getEffectiveMaxMessageSize_pos (cfg : Config) :
    0 < getEffectiveMaxMessageSize cfg := by
  unfold getEffectiveMaxMessageSize DefaultMaxMessageSize
  split_ifs <;> omega

theorem splitAtCalc_le (maxSize : Nat) (remaining : GoStr) :
    splitAtCalc maxSize remaining ≤ maxSize := by
  have h := lastIndex_lt_length
    (remaining.take (if remaining.length < maxSize then remaining.length else maxSize)) '\n'
  rw [List.length_take] at h
  simp only [splitAtCalc]
  split_ifs at h ⊢ <;> omega

theorem splitAtCalc_pos (maxSize : Nat) (remaining : GoStr)
    (hmax : 0 < maxSize) (hne : remaining ≠ []) :
    0 < splitAtCalc maxSize remaining := by
  have hlen : 0 < remaining.length := List.length_pos.mpr hne
  simp only [splitAtCalc]
  split_ifs <;> omega

theorem serializeLoopFuel_flatten (maxSize : Nat) (hmax : 0 < maxSize) :
    ∀ fuel remaining, remaining.length ≤ fuel →
      (serializeLoopFuel fuel maxSize remaining).flatten = remaining := by
  intro fuel
  induction fuel with
  | zero =>
    intro remaining h
    have hnil : remaining = [] := List.eq_nil_of_length_eq_zero (Nat.le_zero.mp h)
    subst hnil
    rfl
  | succ n ih =>
    intro remaining h
    match remaining with
    | [] => rfl
    | x :: xs =>
      have hs := splitAtCalc_pos maxSize (x :: xs) hmax (by simp)
      rw [serializeLoopFuel.eq_3 maxSize (x :: xs) n (by simp), List.flatten_cons]
      rw [ih ((x :: xs).drop (splitAtCalc maxSize (x :: xs)))
        (by rw [List.length_drop]; simp only [List.length_cons] at h ⊢; omega)]
      exact List.take_append_drop _ _

theorem serializeLoopFuel_chunk_le :
    ∀ fuel maxSize remaining m, m ∈ serializeLoopFuel fuel maxSize remaining →
      m.length ≤ maxSize := by
  intro fuel
  induction fuel with
  | zero =>
    intro maxSize remaining m hm
    simp [serializeLoopFuel] at hm
  | succ n ih =>
    intro maxSize remaining m hm
    match remaining with
    | [] => simp [serializeLoopFuel] at hm
    | x :: xs =>
      rw [serializeLoopFuel.eq_3 maxSize (x :: xs) n (by simp)] at hm
      rw [List.mem_cons] at hm
      rcases hm with h | h
      · subst h
        have := splitAtCalc_le maxSize (x :: xs)
        rw [List.length_take]
        omega
      · exact ih _ _ _ h

/-! ## Claims about the message segmenter -/

/-- Claim C1: for every content string (and the always-positive effective max
size), concatenating in order all chunks returned by `splitMessage` in
serialize mode reproduces the original content exactly, with no bytes added
or dropped. -/
theorem serialize_chunks_concat (cfg : Config) (content : GoStr)
    (h : cfg.MessageMode = ModeSerialize) :
    (splitMessage cfg content).flatten = content := by
  simp only [splitMessage]
  split_ifs with h1 h2
  · simp
  · rw [h] at h2
    exact absurd h2 (by decide)
  · exact serializeLoopFuel_flatten _ (getEffectiveMaxMessageSize_pos cfg) _ _ le_rfl

/-- Witness for C1 at a concrete serialize-mode configuration and content. -/
theorem serialize_chunks_concat_witness :
    baseConfig.MessageMode = ModeSerialize ∧
      (splitMessage baseConfig ("ab\ncd".data)).flatten = "ab\ncd".data :=
  ⟨rfl, serialize_chunks_concat baseConfig ("ab\ncd".data) rfl⟩

/-- Claim C2: every chunk returned by `splitMessage` — in any message mode —
has byte length at most the effective max size, namely `MaxMessageSize` when
positive and 2000 otherwise. -/
theorem splitMessage_chunk_le (cfg : Config) (content : GoStr) (m : GoStr)
    (hm : m ∈ splitMessage cfg content) :
    m.length ≤ (if 0 < cfg.MaxMessageSize then cfg.MaxMessageSize.toNat else 2000) := by
  have heq : getEffectiveMaxMessageSize cfg
      = (if 0 < cfg.MaxMessageSize then cfg.MaxMessageSize.toNat else 2000) := by
    unfold getEffectiveMaxMessageSize DefaultMaxMessageSize
    split_ifs <;> omega
  rw [← heq]
  revert hm
  simp only [splitMessage]
  split_ifs with h1 h2 h3 <;> intro hm
  · rw [List.mem_singleton] at hm
    subst hm
    exact h1
  · rw [List.mem_singleton] at hm
    subst hm
    rw [List.length_take]
    omega
  · exact serializeLoopFuel_chunk_le _ _ _ _ hm
  · rw [List.mem_singleton] at hm
    subst hm
    rw [List.length_take]
    omega

/-- Witness for C2 at a concrete configuration, content and chunk. -/
theorem splitMessage_chunk_le_witness :
    "abc".data ∈ splitMessage baseConfig ("abcde".data) ∧
      ("abc".data : GoStr).length
        ≤ (if 0 < baseConfig.MaxMessageSize then baseConfig.MaxMessageSize.toNat else 2000) :=
  ⟨by decide, splitMessage_chunk_le baseConfig ("abcde".data) ("abc".data) (by decide)⟩

/-- Claim C3: with a configured `MaxMessageSize ≤ 0`, `splitMessage` returns
exactly the same chunk sequence as with `MaxMessageSize = 2000`, all else
equal. -/
theorem splitMessage_default_fallback (cfg : Config) (content : GoStr)
    (h : cfg.MaxMessageSize ≤ 0) :
    splitMessage cfg content = splitMessage { cfg with MaxMessageSize := 2000 } content := by
  have hmax : getEffectiveMaxMessageSize { cfg with MaxMessageSize := (2000 : Int) }
      = getEffectiveMaxMessageSize cfg := by
    unfold getEffectiveMaxMessageSize DefaultMaxMessageSize
    rw [if_pos h, if_neg (by norm_num)]
  have hmode : ({ cfg with MaxMessageSize := (2000 : Int) } : Config).MessageMode
      = cfg.MessageMode := rfl
  simp only [splitMessage]
  rw [hmax, hmode]

/-- Witness for C3 at a configuration whose configured max size is zero. -/
theorem splitMessage_default_fallback_witness :
    ({ baseConfig with MaxMessageSize := (0 : Int) } : Config).MaxMessageSize ≤ 0 ∧
      splitMessage { baseConfig with MaxMessageSize := (0 : Int) } ("hi".data)
        = splitMessage
            { { baseConfig with MaxMessageSize := (0 : Int) } with MaxMessageSize := 2000 }
            ("hi".data) :=
  ⟨by decide, splitMessage_default_fallback _ ("hi".data) (by decide)⟩

/-- Claim C4: content whose length is at most the effective max size is
returned as the single-element sequence containing the unmodified content,
whatever the message mode is. -/
theorem splitMessage_short_single (cfg : Config) (content : GoStr)
    (h : content.length ≤ getEffectiveMaxMessageSize cfg) :
    splitMessage cfg content = [content] := by
  simp only [splitMessage]
  rw [if_pos h]

/-- Witness for C4 at a concrete configuration and short content. -/
theorem splitMessage_short_single_witness :
    ("ab".data : GoStr).length ≤ getEffectiveMaxMessageSize baseConfig ∧
      splitMessage baseConfig ("ab".data) = ["ab".data] :=
  ⟨by decide, splitMessage_short_single baseConfig ("ab".data) (by decide)⟩

/-- Claim C5: any message mode other than exactly `truncate` or `serialize`
behaves exactly like truncate mode; in particular, for content of length
`2 * 2000` and effective max size 2000 the result is exactly one chunk of
length at most 2000. -/
theorem splitMessage_invalid_mode (cfg : Config) (content : GoStr)
    (h1 : cfg.MessageMode ≠ ModeTruncate) (h2 : cfg.MessageMode ≠ ModeSerialize) :
    splitMessage cfg content = splitMessage { cfg with MessageMode := ModeTruncate } content ∧
      (content.length = 2 * 2000 → getEffectiveMaxMessageSize cfg = 2000 →
        (splitMessage cfg content).length = 1 ∧
          ∀ m ∈ splitMessage cfg content, m.length ≤ 2000) := by
  have hmax : getEffectiveMaxMessageSize { cfg with MessageMode := ModeTruncate }
      = getEffectiveMaxMessageSize cfg := rfl
  constructor
  · simp only [splitMessage]
    rw [hmax]
    by_cases hlen : content.length ≤ getEffectiveMaxMessageSize cfg
    · rw [if_pos hlen, if_pos hlen]
    · rw [if_neg hlen, if_neg hlen, if_neg h1, if_neg h2, if_pos trivial]
  · intro hlen hmax2
    have hgt : ¬ content.length ≤ getEffectiveMaxMessageSize cfg := by omega
    simp only [splitMessage]
    rw [if_neg hgt, if_neg h1, if_neg h2]
    refine ⟨rfl, ?_⟩
    intro m hm
    rw [List.mem_singleton] at hm
    subst hm
    rw [List.length_take]
    omega

/-- Witness for C5: the scenario with an unrecognized mode, content of
length `2 * 2000` and max size 2000, yielding one chunk of length at most
2000. -/
theorem splitMessage_invalid_mode_witness :
    cfgInvalid.MessageMode ≠ ModeTruncate ∧ cfgInvalid.MessageMode ≠ ModeSerialize ∧
      (List.replicate 4000 'a').length = 2 * 2000 ∧
      getEffectiveMaxMessageSize cfgInvalid = 2000 ∧
      (splitMessage cfgInvalid (List.replicate 4000 'a')).length = 1 :=
  ⟨by decide, by decide, by rw [List.length_replicate], by decide,
    ((splitMessage_invalid_mode cfgInvalid (List.replicate 4000 'a')
      (by decide) (by decide)).2 (by rw [List.length_replicate]) (by decide)).1⟩

/-! ## Lemmas about the association-list map model -/

theorem mapLookup_overwrite_self (m : List (GoStr × GoStr)) (k v : GoStr)
    (h : m.any (fun p => p.1 = k) = true) :
    mapLookup (m.map (fun p => if p.1 = k then (k, v) else p)) k = some v := by
  induction m with
  | nil => simp at h
  | cons p rest ih =>
    simp only [List.any_cons, Bool.or_eq_true, decide_eq_true_eq] at h
    by_cases hp : p.1 = k
    · simp only [List.map_cons, if_pos hp, mapLookup]
      rw [if_pos trivial]
    · simp only [List.map_cons, if_neg hp, mapLookup, if_neg hp]
      exact ih (h.resolve_left hp)

theorem mapLookup_overwrite_ne (m : List (GoStr × GoStr)) (k v k' : GoStr)
    (h : k' ≠ k) :
    mapLookup (m.map (fun p => if p.1 = k then (k, v) else p)) k' = mapLookup m k' := by
  induction m with
  | nil => rfl
  | cons p rest ih =>
    by_cases hp : p.1 = k
    · have hpk : ¬ p.1 = k' := by
        rw [hp]
        exact fun hk => h hk.symm
      simp only [List.map_cons, if_pos hp, mapLookup]
      rw [if_neg (fun hk => h hk.symm), if_neg hpk]
      exact ih
    · simp only [List.map_cons, if_neg hp, mapLookup]
      rw [ih]

theorem mapLookup_append_self (m : List (GoStr × GoStr)) (k v : GoStr)
    (h : m.any (fun p => p.1 = k) = false) :
    mapLookup (m ++ [(k, v)]) k = some v := by
  induction m with
  | nil =>
    simp only [List.nil_append, mapLookup]
    rw [if_pos trivial]
  | cons p rest ih =>
    simp only [List.any_cons, Bool.or_eq_false_iff, decide_eq_false_iff_not] at h
    simp only [List.cons_append, mapLookup]
    rw [if_neg h.1]
    exact ih h.2

theorem mapLookup_append_ne (m : List (GoStr × GoStr)) (k v k' : GoStr)
    (h : k' ≠ k) :
    mapLookup (m ++ [(k, v)]) k' = mapLookup m k' := by
  induction m with
  | nil =>
    simp only [List.nil_append, mapLookup]
    rw [if_neg (fun hk => h hk.symm)]
  | cons p rest ih =>
    simp only [List.cons_append, mapLookup]
    by_cases hk : p.1 = k'
    · rw [if_pos hk, if_pos hk]
    · rw [if_neg hk, if_neg hk]
      exact ih

theorem mapLookup_insert_self (m : List (GoStr × GoStr)) (k v : GoStr) :
    mapLookup (mapInsert m k v) k = some v := by
  unfold mapInsert
  split_ifs with hany
  · exact mapLookup_overwrite_self m k v hany
  · exact mapLookup_append_self m k v (by rwa [Bool.not_eq_true] at hany)

theorem mapLookup_insert_ne (m : List (GoStr × GoStr)) (k v k' : GoStr)
    (h : k' ≠ k) :
    mapLookup (mapInsert m k v) k' = mapLookup m k' := by
  unfold mapInsert
  split_ifs with hany
  · exact mapLookup_overwrite_ne m k v k' h
  · exact mapLookup_append_ne m k v k' h

theorem mapLookup_eq_none (m : List (GoStr × GoStr)) (k : GoStr)
    (h : mapLookup m k = none) : ∀ p ∈ m, p.1 ≠ k := by
  induction m with
  | nil =>
    intro p hp
    simp at hp
  | cons q rest ih =>
    rw [mapLookup] at h
    by_cases hq : q.1 = k
    · rw [if_pos hq] at h
      exact absurd h (by simp)
    · rw [if_neg hq] at h
      intro p hp
      rcases List.mem_cons.mp hp with hpq | hp2
      · rw [hpq]
        exact hq
      · exact ih h p hp2

theorem foldl_mapInsert_not_mem (ps : List (GoStr × GoStr))
    (m : List (GoStr × GoStr)) (k : GoStr) (h : ∀ p ∈ ps, p.1 ≠ k) :
    mapLookup (ps.foldl (fun acc p => mapInsert acc p.1 p.2) m) k = mapLookup m k := by
  induction ps generalizing m with
  | nil => rfl
  | cons q rest ih =>
    simp only [List.foldl_cons]
    rw [ih _ (fun p hp => h p (List.mem_cons_of_mem _ hp))]
    exact mapLookup_insert_ne m q.1 q.2 k
      (fun hk => h q (List.mem_cons_self _ _) hk.symm)

theorem foldl_mapInsert_lookup (ps : List (GoStr × GoStr))
    (m : List (GoStr × GoStr)) (k v : GoStr)
    (hnd : (ps.map Prod.fst).Nodup) (hk : mapLookup ps k = some v) :
    mapLookup (ps.foldl (fun acc p => mapInsert acc p.1 p.2) m) k = some v := by
  induction ps generalizing m with
  | nil => simp [mapLookup] at hk
  | cons q rest ih =>
    simp only [List.map_cons, List.nodup_cons] at hnd
    simp only [List.foldl_cons]
    rw [mapLookup] at hk
    by_cases hq : q.1 = k
    · rw [if_pos hq] at hk
      have hrest : ∀ p ∈ rest, p.1 ≠ k := fun p hp hpk =>
        hnd.1 (List.mem_map.mpr ⟨p, hp, hpk.trans hq.symm⟩)
      rw [foldl_mapInsert_not_mem rest _ k hrest, hq, mapLookup_insert_self]
      exact hk
    · rw [if_neg hq] at hk
      exact ih _ hnd.2 hk

theorem mapInsert_keys_nodup (m : List (GoStr × GoStr)) (k v : GoStr)
    (h : (m.map Prod.fst).Nodup) :
    ((mapInsert m k v).map Prod.fst).Nodup := by
  unfold mapInsert
  split_ifs with hany
  · have hkeys : ((m.map (fun p => if p.1 = k then (k, v) else p)).map Prod.fst)
        = m.map Prod.fst := by
      rw [List.map_map]
      apply List.map_congr_left
      intro p hp
      by_cases hpk : p.1 = k
      · simp only [Function.comp_apply, if_pos hpk]
        exact hpk.symm
      · simp only [Function.comp_apply, if_neg hpk]
    rw [hkeys]
    exact h
  · rw [List.map_append, List.nodup_append]
    refine ⟨h, by simp, ?_⟩
    intro a ha hb
    simp only [List.map_cons, List.map_nil, List.mem_singleton] at hb
    subst hb
    rcases List.mem_map.mp ha with ⟨p, hp, hpa⟩
    rw [List.any_eq_true] at hany
    exact hany ⟨p, hp, by simp [hpa]⟩

theorem propStep_keys_nodup (props : List (GoStr × GoStr)) (pair : GoStr)
    (h : (props.map Prod.fst).Nodup) :
    ((propStep props pair).map Prod.fst).Nodup := by
  unfold propStep
  split
  · exact mapInsert_keys_nodup _ _ _ h
  · exact h

theorem parseProperties_keys_nodup (propStr : GoStr) :
    ((parseProperties propStr).map Prod.fst).Nodup := by
  unfold parseProperties
  split_ifs
  · simp
  · have hfold : ∀ (pairs : List GoStr) (acc : List (GoStr × GoStr)),
        (acc.map Prod.fst).Nodup → ((pairs.foldl propStep acc).map Prod.fst).Nodup := by
      intro pairs
      induction pairs with
      | nil => exact fun acc h => h
      | cons q rest ih => exact fun acc h => ih _ (propStep_keys_nodup _ _ h)
    exact hfold _ _ (by simp)

/-! ## Claims about property parsing and merging -/

/-- Claim C6 counterexample: the pair `k:v:w`, whose value part would contain
a colon, is silently dropped by `parseProperties` — the result is the empty
map, not the binding of key `k` to the remainder `v:w` after the first colon
that the claim describes. -/
theorem parseProperties_first_colon_cex :
    parseProperties ("k:v:w".data) = [] ∧
      parseProperties ("k:v:w".data) ≠ [("k".data, "v:w".data)] := by
  decide

/-- Claim C6 (amended): `parseProperties` splits its input on semicolons and
processes the resulting pairs in order (first clause); a pair whose trimmed
form contains no colon is silently dropped, without error (second clause); a
pair whose trimmed form contains exactly one colon contributes its trimmed
key and trimmed value (third clause); and a pair containing two or more
colons — in particular one whose value part contains a colon — is silently
dropped as well, not split on the first colon (fourth clause). -/
theorem parseProperties_pair_behavior (props : List (GoStr × GoStr))
    (p q pair k v w : GoStr) :
    (';' ∉ p → parseProperties (p ++ ';' :: q)
        = (goSplit ';' q).foldl propStep (propStep [] p)) ∧
    (':' ∉ trimSpace pair → propStep props pair = props) ∧
    (trimSpace pair = k ++ ':' :: v → ':' ∉ k → ':' ∉ v →
      propStep props pair = mapInsert props (trimSpace k) (trimSpace v)) ∧
    (trimSpace pair = k ++ ':' :: (v ++ ':' :: w) →
      ':' ∉ k → ':' ∉ v → ':' ∉ w → propStep props pair = props) := by
  refine ⟨?_, ?_, ?_, ?_⟩
  · intro hp
    unfold parseProperties
    rw [if_neg (by simp), goSplit_append ';' p q hp, List.foldl_cons]
  · intro h
    unfold propStep
    rw [goSplit_eq_single ':' _ h]
  · intro he hk hv
    unfold propStep
    rw [he, goSplit_append ':' k v hk, goSplit_eq_single ':' v hv]
  · intro he hk hv hw
    unfold propStep
    rw [he, goSplit_append ':' k _ hk, goSplit_append ':' v w hv,
      goSplit_eq_single ':' w hw]

/-- Witness for C6 (amended) at the concrete pairs ` k : v `, `nocolon` and
`a:b:c`, one per clause. -/
theorem parseProperties_pair_behavior_witness :
    trimSpace (" k : v ".data) = ("k ".data ++ ':' :: " v".data) ∧
      propStep [] (" k : v ".data)
        = mapInsert [] (trimSpace ("k ".data)) (trimSpace (" v".data)) :=
  ⟨by decide,
    (parseProperties_pair_behavior [] [] [] (" k : v ".data)
        ("k ".data) (" v".data) []).2.2.1 (by decide) (by decide) (by decide)⟩

/-- Claim C7: with non-empty incoming properties, replace mode yields exactly
the parsed incoming map (the existing map is discarded), and merge mode gives
every incoming binding priority over an existing binding of the same key
while preserving unchanged every existing binding whose key does not occur in
the incoming map. -/
theorem mergeProperties_modes (existing : List (GoStr × GoStr)) (incoming : GoStr)
    (h : incoming ≠ []) :
    mergeProperties existing incoming ModeReplace = parseProperties incoming ∧
      (∀ k v, mapLookup (parseProperties incoming) k = some v →
        mapLookup (mergeProperties existing incoming ModeMerge) k = some v) ∧
      (∀ k, mapLookup (parseProperties incoming) k = none →
        mapLookup (mergeProperties existing incoming ModeMerge) k
          = mapLookup existing k) := by
  refine ⟨?_, ?_, ?_⟩
  · simp only [mergeProperties]
    rw [if_pos h, if_pos trivial]
  · intro k v hk
    simp only [mergeProperties]
    rw [if_pos h, if_neg (by decide)]
    exact foldl_mapInsert_lookup _ _ _ _ (parseProperties_keys_nodup incoming) hk
  · intro k hk
    simp only [mergeProperties]
    rw [if_pos h, if_neg (by decide)]
    exact foldl_mapInsert_not_mem _ _ _ (mapLookup_eq_none _ _ hk)

/-- Witness for C7 at the documented example: existing `one:1, two:2` merged
with incoming `two:22;three:3`. -/
theorem mergeProperties_modes_witness :
    ("two:22;three:3".data : GoStr) ≠ [] ∧
      mapLookup (parseProperties ("two:22;three:3".data)) ("two".data)
        = some ("22".data) ∧
      mapLookup (mergeProperties exProps ("two:22;three:3".data) ModeMerge)
        ("two".data) = some ("22".data) :=
  ⟨by decide, by decide,
    (mergeProperties_modes exProps ("two:22;three:3".data) (by decide)).2.1
      ("two".data) ("22".data) (by decide)⟩

/-! ## Claims about flag merging and delivery -/

theorem mergeFlags_Debug (c : CLIFlags) (cfg : Config) :
    (mergeFlags c cfg).Debug = (cfg.Debug || c.debug) := by
  unfold mergeFlags applyProperties applyTags applyThreadName applyMessageMode
    applyMaxMessageSize applyPropertyMode applyTagMode applyPassthrough applyDebug
    applyUsername applyServerID applyChannelID applyToken
  simp only [apply_ite Config.Debug, ite_self]
  cases c.debug <;> simp

theorem mergeFlags_Passthrough (c : CLIFlags) (cfg : Config) :
    (mergeFlags c cfg).Passthrough = (cfg.Passthrough || c.passthrough) := by
  unfold mergeFlags applyProperties applyTags applyThreadName applyMessageMode
    applyMaxMessageSize applyPropertyMode applyTagMode applyPassthrough applyDebug
    applyUsername applyServerID applyChannelID applyToken
  simp only [apply_ite Config.Passthrough, ite_self]
  cases c.passthrough <;> simp

theorem mergeFlags_Tags (c : CLIFlags) (cfg : Config) :
    (mergeFlags c cfg).Tags
      = mergeTags cfg.Tags c.tags (if c.tagMode ≠ [] then c.tagMode else cfg.TagMode) := by
  unfold mergeFlags applyProperties applyTags applyThreadName applyMessageMode
    applyMaxMessageSize applyPropertyMode applyTagMode applyPassthrough applyDebug
    applyUsername applyServerID applyChannelID applyToken
  simp only [apply_ite Config.Tags, apply_ite Config.TagMode, ite_self]

/-- Claim C8: after `mergeFlags`, the `debug` and `passthrough` fields equal
the disjunction of the persisted value and the invocation override — a true
override turns the field on, while a false override never clears a persisted
true. -/
theorem mergeFlags_sticky_booleans (c : CLIFlags) (cfg : Config) :
    (mergeFlags c cfg).Debug = (cfg.Debug || c.debug) ∧
      (mergeFlags c cfg).Passthrough = (cfg.Passthrough || c.passthrough) :=
  ⟨mergeFlags_Debug c cfg, mergeFlags_Passthrough c cfg⟩

theorem foldl_insertIfAbsent_nodup (l : List GoStr) (acc : List GoStr)
    (h : acc.Nodup) : (l.foldl insertIfAbsent acc).Nodup := by
  induction l generalizing acc with
  | nil => exact h
  | cons t rest ih =>
    apply ih
    unfold insertIfAbsent
    split_ifs with hmem
    · exact h
    · rw [List.nodup_append]
      refine ⟨h, List.nodup_singleton t, ?_⟩
      intro a ha hb
      rw [List.mem_singleton] at hb
      subst hb
      exact hmem ha

theorem dedupTags_nodup (old new : List GoStr) : (dedupTags old new).Nodup :=
  foldl_insertIfAbsent_nodup _ [] List.nodup_nil

/-- Claim C9 counterexample: with tag mode `replace` and the duplicate
incoming tag string `a,a`, configuration resolution produces the tag list
`[a, a]`, which contains a duplicate — the resolved tag list is not always a
deduplicated set. -/
theorem mergeFlags_tags_duplicate_cex :
    ¬ ((mergeFlags cliDupTags baseConfig).Tags).Nodup := by
  decide

/-- Claim C9 (amended): when incoming tags are supplied and the effective tag
mode (the flag value when non-empty, the persisted one otherwise) is not
`replace`, the tag list produced by configuration resolution contains no
duplicates; in replace mode the parsed incoming tags are adopted verbatim
and may contain duplicates. -/
theorem mergeFlags_tags_nodup_merge (c : CLIFlags) (cfg : Config)
    (ht : c.tags ≠ [])
    (hm : (if c.tagMode ≠ [] then c.tagMode else cfg.TagMode) ≠ ModeReplace) :
    ((mergeFlags c cfg).Tags).Nodup := by
  rw [mergeFlags_Tags]
  simp only [mergeTags]
  rw [if_pos ht, if_neg hm]
  exact dedupTags_nodup _ _

/-- Witness for C9 (amended): duplicate incoming tags `a,a` in merge mode
still resolve to a duplicate-free tag list. -/
theorem mergeFlags_tags_nodup_merge_witness :
    cliDupMergeTags.tags ≠ [] ∧
      (if cliDupMergeTags.tagMode ≠ [] then cliDupMergeTags.tagMode
        else baseConfig.TagMode) ≠ ModeReplace ∧
      ((mergeFlags cliDupMergeTags baseConfig).Tags).Nodup :=
  ⟨by decide, by decide,
    mergeFlags_tags_nodup_merge cliDupMergeTags baseConfig (by decide) (by decide)⟩

/-- Claim C10 counterexample: with an empty token and zero-length stdin, the
delivery phase reports a configuration error instead of succeeding — the
claim fails for configurations with missing credentials. -/
theorem sendToDiscord_empty_stdin_cex :
    ([] : GoStr).length = 0 ∧
      (sendToDiscord { baseConfig with Token := [] } []).isSuccess = false := by
  decide

/-- Claim C10 (amended): provided the resolved configuration carries a
non-empty token and channel ID, a zero-length stdin capture makes the
delivery phase send no message and return success — a no-op, not an error. -/
theorem sendToDiscord_empty_stdin_noop (cfg : Config) (stdinData : GoStr)
    (htok : cfg.Token ≠ []) (hch : cfg.ChannelID ≠ []) (hlen : stdinData.length = 0) :
    sendToDiscord cfg stdinData = DeliveryResult.sentNothing ∧
      (sendToDiscord cfg stdinData).sendsNoMessage = true ∧
      (sendToDiscord cfg stdinData).isSuccess = true := by
  have h : sendToDiscord cfg stdinData = DeliveryResult.sentNothing := by
    unfold sendToDiscord
    rw [if_neg htok, if_neg hch, if_pos hlen]
  exact ⟨h, by rw [h]; rfl, by rw [h]; rfl⟩

/-- Witness for C10 (amended) at a configured token/channel and empty
stdin. -/
theorem sendToDiscord_empty_stdin_noop_witness :
    baseConfig.Token ≠ [] ∧ baseConfig.ChannelID ≠ [] ∧ ([] : GoStr).length = 0 ∧
      sendToDiscord baseConfig [] = DeliveryResult.sentNothing ∧
      (sendToDiscord baseConfig []).isSuccess = true :=
  ⟨by decide, by decide, rfl,
    (sendToDiscord_empty_stdin_noop baseConfig [] (by decide) (by decide) rfl).1,
    (sendToDiscord_empty_stdin_noop baseConfig [] (by decide) (by decide) rfl).2.2⟩

end Disgo

